import Mathlib

/-!
Verification of the identity-search and abbreviated-repr utilities of
`panel/util.py` against their natural-language specification.

Python values are modelled abstractly for the search functions: the
`is` identity test is a Boolean function `ident`, the `==` operator is a
function `eq` returning `Option Bool` where `none` models the comparison
raising an exception, and `str` (used to build the `ValueError` message)
is a function `strFn`.  Python strings are modelled as `List Char` and the
container kind tested by `isinstance` in `abbreviated_repr` is an
enumeration.
-/

namespace PanelUtil

/-- Result of the guarded `o == obj` test: true exactly when the comparison
returns true; a false result or a raised exception (`none`) is no match. -/
def eqCheck (eq : α → α → Option Bool) (o obj : α) : Bool :=
  match eq o obj with | some true => true | _ => false

/-- The per-element match test of `isIn`/`indexOf`: identity first, then the
equality operator, where a raising comparison (`eq o obj = none`) counts as
no match. -/
def matchb (eq : α → α → Option Bool) (ident : α → α → Bool)
    (obj : α) (o : α) : Bool :=
  ident o obj || eqCheck eq o obj

/-- Function isIn(obj, objs) from `panel/util.py`: scans `objs`; for each
element `o`, returns true if `o is obj`, otherwise tries `o == obj`
returning true on success, suppressing any exception; returns false after
the loop. -/
def isIn (eq : α → α → Option Bool) (ident : α → α → Bool)
    (obj : α) : List α → Bool
  | [] => false
  | o :: rest =>
    if ident o obj then true
    else match eq o obj with
      | some true => true
      | _ => isIn eq ident obj rest

/-- Loop of indexOf(obj, objs) with the running `enumerate` counter. -/
def indexOfAux (eq : α → α → Option Bool) (ident : α → α → Bool)
    (strFn : α → String) (obj : α) : Nat → List α → Except String Nat
  | _, [] => Except.error (strFn obj ++ " not in list")
  | i, o :: rest =>
    if ident o obj then Except.ok i
    else match eq o obj with
      | some true => Except.ok i
      | _ => indexOfAux eq ident strFn obj (i + 1) rest

/-- Function indexOf(obj, objs) from `panel/util.py`: same scan as `isIn`
but returns the zero-based index of the first match, and raises
a ValueError carrying str(obj) when the scan exhausts the list. -/
def indexOf (eq : α → α → Option Bool) (ident : α → α → Bool)
    (strFn : α → String) (obj : α) (objs : List α) : Except String Nat :=
  indexOfAux eq ident strFn obj 0 objs

/-- The container kind of the summarised value, as tested by the
`isinstance` chain in `abbreviated_repr`.  `orderedDict` is separate from
`pydict` because the `isinstance(value, OrderedDict)` test fires before the
`isinstance(value, (dict, set))` test. -/
inductive PyKind where
  | pylist
  | orderedDict
  | pydict
  | pyset
  | other
deriving DecidableEq

/-- The closing suffix (`end_char`) chosen by the `isinstance` chain of
`abbreviated_repr`. -/
def end_char (k : PyKind) : List Char :=
  if k = PyKind.pylist then [']']
  else if k = PyKind.orderedDict then [']', ')']
  else if k = PyKind.pydict ∨ k = PyKind.pyset then ['\x7d']
  else []

/-- The natural-break loop of `abbreviated_repr`: scan the delimiters in
the given order and return, for the first delimiter present anywhere in the
window `abbrv`, the absolute offset `abbrv.index(brk) + max_length // 2`
(where `half = max_length // 2`); `none` when no delimiter occurs. -/
def findBreak (abbrv : List Char) (half : Nat) : List Char → Option Nat
  | [] => none
  | brk :: rest =>
    if brk ∈ abbrv then some (List.indexOf brk abbrv + half)
    else findBreak abbrv half rest

/-- Function abbreviated_repr(value, max_length, natural_breaks) from
`panel/util.py`, with repr(value) passed in as the char list `vrepr` and
the container kind of `value` as `kind`.  Mirrors the source exactly,
including the Python truthiness test `if natural_break and natural_break <
max_length` (so a break offset of 0 does not extend the cutoff). -/
def abbreviated_repr (kind : PyKind) (vrepr : List Char)
    (max_length : Nat) (natural_breaks : List Char) :
    List Char :=
  if vrepr.length > max_length then
    let abbrv := vrepr.drop (max_length / 2)
    let natural_break := findBreak abbrv (max_length / 2) natural_breaks
    let max_length2 :=
      match natural_break with
      | some nb => if nb ≠ 0 ∧ nb < max_length then nb + 1 else max_length
      | none => max_length
    vrepr.take (max_length2 + 1) ++ ['.', '.', '.'] ++ end_char kind
  else vrepr

/-! ## Lemmas about the search scan -/

lemma matchb_true_iff (eq : α → α → Option Bool) (ident : α → α → Bool)
    (obj o : α) :
    matchb eq ident obj o = true ↔ ident o obj = true ∨ eq o obj = some true := by
  cases hi : ident o obj
  · cases he : eq o obj with
    | none => simp [matchb, eqCheck, hi, he]
    | some b => cases b <;> simp [matchb, eqCheck, hi, he]
  · simp [matchb, eqCheck, hi]

lemma isIn_cons (eq : α → α → Option Bool) (ident : α → α → Bool)
    (obj o : α) (rest : List α) :
    isIn eq ident obj (o :: rest) = (matchb eq ident obj o || isIn eq ident obj rest) := by
  cases hi : ident o obj
  · cases he : eq o obj with
    | none => simp [isIn, matchb, eqCheck, hi, he]
    | some b => cases b <;> simp [isIn, matchb, eqCheck, hi, he]
  · simp [isIn, matchb, eqCheck, hi]

lemma indexOfAux_cons (eq : α → α → Option Bool) (ident : α → α → Bool)
    (strFn : α → String) (obj o : α) (rest : List α) (k : Nat) :
    indexOfAux eq ident strFn obj k (o :: rest) =
      if matchb eq ident obj o = true then Except.ok k
      else indexOfAux eq ident strFn obj (k + 1) rest := by
  cases hi : ident o obj
  · cases he : eq o obj with
    | none => simp [indexOfAux, matchb, eqCheck, hi, he]
    | some b => cases b <;> simp [indexOfAux, matchb, eqCheck, hi, he]
  · simp [indexOfAux, matchb, eqCheck, hi]

lemma isIn_eq_true_iff (eq : α → α → Option Bool) (ident : α → α → Bool)
    (obj : α) (l : List α) :
    isIn eq ident obj l = true ↔ ∃ o ∈ l, matchb eq ident obj o = true := by
  induction l with
  | nil => simp [isIn]
  | cons o rest ih =>
    rw [isIn_cons, Bool.or_eq_true, ih]
    constructor
    · rintro (hm | ⟨x, hx, hmx⟩)
      · exact ⟨o, List.mem_cons_self o rest, hm⟩
      · exact ⟨x, List.mem_cons_of_mem o hx, hmx⟩
    · rintro ⟨x, hx, hmx⟩
      rcases List.mem_cons.mp hx with rfl | hx'
      · exact Or.inl hmx
      · exact Or.inr ⟨x, hx', hmx⟩

lemma indexOfAux_error_iff (eq : α → α → Option Bool) (ident : α → α → Bool)
    (strFn : α → String) (obj : α) :
    ∀ (l : List α) (k : Nat) (msg : String),
      indexOfAux eq ident strFn obj k l = Except.error msg ↔
        (msg = strFn obj ++ " not in list" ∧ ∀ o ∈ l, matchb eq ident obj o = false) := by
  intro l
  induction l with
  | nil =>
    intro k msg
    simp only [indexOfAux, Except.error.injEq]
    constructor
    · intro h
      exact ⟨h.symm, by simp⟩
    · rintro ⟨h1, -⟩
      exact h1.symm
  | cons o rest ih =>
    intro k msg
    rw [indexOfAux_cons]
    by_cases hm : matchb eq ident obj o = true
    · rw [if_pos hm]
      constructor
      · intro h; exact Except.noConfusion h
      · rintro ⟨-, hall⟩
        have hfalse := hall o (List.mem_cons_self o rest)
        rw [hm] at hfalse
        exact Bool.noConfusion hfalse
    · rw [if_neg hm, ih (k + 1) msg]
      constructor
      · rintro ⟨h1, h2⟩
        refine ⟨h1, ?_⟩
        intro x hx
        rcases List.mem_cons.mp hx with rfl | hx'
        · cases hmm : matchb eq ident obj x
          · rfl
          · exact absurd hmm hm
        · exact h2 x hx'
      · rintro ⟨h1, h2⟩
        exact ⟨h1, fun x hx => h2 x (List.mem_cons_of_mem o hx)⟩

/-- A position is the first match of the Boolean test `m` in `l` when the
test holds there and fails at every earlier position. -/
def isFirstMatch (m : α → Bool) (l : List α) (i : Nat) : Prop :=
  ∃ h : i < l.length,
    m (l.get ⟨i, h⟩) = true ∧ ∀ j (hj : j < i), m (l.get ⟨j, Nat.lt_trans hj h⟩) = false

lemma isFirstMatch_nil (m : α → Bool) (i : Nat) : ¬ isFirstMatch m [] i := by
  rintro ⟨h, -, -⟩
  simp at h

lemma isFirstMatch_cons_zero {m : α → Bool} {o : α} {l : List α} :
    isFirstMatch m (o :: l) 0 ↔ m o = true := by
  constructor
  · rintro ⟨h, hm, -⟩
    exact hm
  · intro hm
    exact ⟨Nat.succ_pos l.length, hm, fun j hj => absurd hj (Nat.not_lt_zero j)⟩

lemma isFirstMatch_cons_succ {m : α → Bool} {o : α} {l : List α} {i : Nat} :
    isFirstMatch m (o :: l) (i + 1) ↔ m o = false ∧ isFirstMatch m l i := by
  constructor
  · rintro ⟨h, hm, hprev⟩
    have h' : i < l.length := Nat.lt_of_succ_lt_succ h
    refine ⟨hprev 0 (Nat.succ_pos i), h', hm, ?_⟩
    intro j hj
    exact hprev (j + 1) (Nat.succ_lt_succ hj)
  · rintro ⟨ho, h', hm, hprev⟩
    refine ⟨Nat.succ_lt_succ h', hm, ?_⟩
    intro j hj
    cases j with
    | zero => exact ho
    | succ j' => exact hprev j' (Nat.lt_of_succ_lt_succ hj)

lemma indexOfAux_ok_iff (eq : α → α → Option Bool) (ident : α → α → Bool)
    (strFn : α → String) (obj : α) :
    ∀ (l : List α) (k n : Nat),
      indexOfAux eq ident strFn obj k l = Except.ok n ↔
        ∃ i, n = k + i ∧ isFirstMatch (matchb eq ident obj) l i := by
  intro l
  induction l with
  | nil =>
    intro k n
    constructor
    · intro h
      exact Except.noConfusion h
    · rintro ⟨i, -, hf⟩
      exact absurd hf (isFirstMatch_nil _ i)
  | cons o rest ih =>
    intro k n
    rw [indexOfAux_cons]
    by_cases hm : matchb eq ident obj o = true
    · rw [if_pos hm]
      constructor
      · intro h
        injection h with hkn
        exact ⟨0, by omega, isFirstMatch_cons_zero.mpr hm⟩
      · rintro ⟨i, hn, hf⟩
        cases i with
        | zero =>
          have hkn : n = k := by omega
          rw [hkn]
        | succ j =>
          rcases isFirstMatch_cons_succ.mp hf with ⟨ho, -⟩
          rw [hm] at ho
          exact Bool.noConfusion ho
    · rw [if_neg hm, ih (k + 1) n]
      constructor
      · rintro ⟨i, hn, hf⟩
        refine ⟨i + 1, by omega, isFirstMatch_cons_succ.mpr ⟨?_, hf⟩⟩
        cases hmm : matchb eq ident obj o
        · rfl
        · exact absurd hmm hm
      · rintro ⟨i, hn, hf⟩
        cases i with
        | zero => exact absurd (isFirstMatch_cons_zero.mp hf) hm
        | succ j =>
          rcases isFirstMatch_cons_succ.mp hf with ⟨-, hf'⟩
          exact ⟨j, by omega, hf'⟩

lemma indexOfAux_succ (eq : α → α → Option Bool) (ident : α → α → Bool)
    (strFn : α → String) (obj : α) :
    ∀ (l : List α) (k : Nat),
      indexOfAux eq ident strFn obj (k + 1) l =
        Except.map (fun n => n + 1) (indexOfAux eq ident strFn obj k l) := by
  intro l
  induction l with
  | nil => intro k; rfl
  | cons o rest ih =>
    intro k
    rw [indexOfAux_cons, indexOfAux_cons]
    by_cases hm : matchb eq ident obj o = true
    · rw [if_pos hm, if_pos hm]
      rfl
    · rw [if_neg hm, if_neg hm]
      exact ih (k + 1)

/-! ## Lemmas about the abbreviated repr -/

/-- The effective cutoff computed by the long branch of `abbreviated_repr`,
factored out of its let-bindings: the reassigned value of the Python local
`max_length` after the natural-break search. -/
def break_cutoff (vrepr : List Char) (max_length : Nat)
    (natural_breaks : List Char) : Nat :=
  match findBreak (vrepr.drop (max_length / 2)) (max_length / 2) natural_breaks with
  | some nb => if nb ≠ 0 ∧ nb < max_length then nb + 1 else max_length
  | none => max_length

lemma abbreviated_repr_long (kind : PyKind) (vrepr : List Char)
    (max_length : Nat) (natural_breaks : List Char)
    (h : vrepr.length > max_length) :
    abbreviated_repr kind vrepr max_length natural_breaks =
      vrepr.take (break_cutoff vrepr max_length natural_breaks + 1) ++
        ['.', '.', '.'] ++ end_char kind := by
  unfold abbreviated_repr break_cutoff
  rw [if_pos h]

lemma break_cutoff_le (vrepr : List Char) (max_length : Nat)
    (natural_breaks : List Char) :
    break_cutoff vrepr max_length natural_breaks ≤ max_length := by
  unfold break_cutoff
  cases hb : findBreak (vrepr.drop (max_length / 2)) (max_length / 2) natural_breaks with
  | none => exact Nat.le_refl max_length
  | some nb =>
    show (if nb ≠ 0 ∧ nb < max_length then nb + 1 else max_length) ≤ max_length
    by_cases hc : nb ≠ 0 ∧ nb < max_length
    · rw [if_pos hc]
      omega
    · rw [if_neg hc]

lemma findBreak_half_le (abbrv : List Char) (half : Nat) :
    ∀ (breaks : List Char) (nb : Nat),
      findBreak abbrv half breaks = some nb → half ≤ nb := by
  intro breaks
  induction breaks with
  | nil =>
    intro nb h
    exact Option.noConfusion h
  | cons b rest ih =>
    intro nb h
    simp only [findBreak] at h
    by_cases hmem : b ∈ abbrv
    · rw [if_pos hmem] at h
      injection h with h'
      omega
    · rw [if_neg hmem] at h
      exact ih nb h

/-- The effective cutoff as described by the specification: whenever the
break offset is below the maximum length, the cutoff is extended to one
past that offset; otherwise it stays at the maximum length. -/
def claim_cutoff (nbo : Option Nat) (max_length : Nat) : Nat :=
  match nbo with
  | some nb => if nb < max_length then nb + 1 else max_length
  | none => max_length

lemma break_cutoff_eq_claim (vrepr : List Char) (max_length : Nat)
    (natural_breaks : List Char) :
    break_cutoff vrepr max_length natural_breaks =
      claim_cutoff (findBreak (vrepr.drop (max_length / 2)) (max_length / 2) natural_breaks)
        max_length := by
  unfold break_cutoff claim_cutoff
  cases hb : findBreak (vrepr.drop (max_length / 2)) (max_length / 2) natural_breaks with
  | none => rfl
  | some nb =>
    show (if nb ≠ 0 ∧ nb < max_length then nb + 1 else max_length) =
      (if nb < max_length then nb + 1 else max_length)
    by_cases h0 : nb = 0
    · subst h0
      have hh : max_length / 2 ≤ 0 := findBreak_half_le _ _ natural_breaks 0 hb
      by_cases hlt : 0 < max_length
      · rw [if_neg (fun hc => hc.1 rfl), if_pos hlt]
        omega
      · rw [if_neg (fun hc => hc.1 rfl), if_neg hlt]
    · by_cases hlt : nb < max_length
      · rw [if_pos ⟨h0, hlt⟩, if_pos hlt]
      · rw [if_neg (fun hc => hlt hc.2), if_neg hlt]

/-! ## Claim theorems -/

/-- C1: indexOf returns index `n` exactly when `n` is the smallest
zero-based position whose element matches the target by identity or by a
successful equality comparison, every earlier position matching by neither
check (a raising equality comparison counting as no match). -/
theorem indexOf_ok_iff_first_match (eq : α → α → Option Bool)
    (ident : α → α → Bool) (strFn : α → String) (obj : α) (objs : List α)
    (n : Nat) :
    indexOf eq ident strFn obj objs = Except.ok n ↔
      isFirstMatch (matchb eq ident obj) objs n := by
  unfold indexOf
  rw [indexOfAux_ok_iff]
  constructor
  · rintro ⟨i, hi, hf⟩
    have hni : n = i := by omega
    rw [hni]
    exact hf
  · intro hf
    exact ⟨n, by omega, hf⟩

/-- C2: on a representation longer than the maximum length,
abbreviated_repr truncates to one past the cutoff described by the
specification — the cutoff extended to one past the first natural-break
offset whenever that offset is below the maximum length, and left at the
maximum length otherwise — then appends the ellipsis and the closing
suffix. -/
theorem abbreviated_repr_cutoff_spec (kind : PyKind) (vrepr : List Char)
    (max_length : Nat) (natural_breaks : List Char)
    (h : vrepr.length > max_length) :
    abbreviated_repr kind vrepr max_length natural_breaks =
      vrepr.take
          (claim_cutoff
            (findBreak (vrepr.drop (max_length / 2)) (max_length / 2) natural_breaks)
            max_length + 1) ++
        ['.', '.', '.'] ++ end_char kind := by
  rw [abbreviated_repr_long kind vrepr max_length natural_breaks h,
    break_cutoff_eq_claim]

/-- Witness for C2 at a concrete input whose representation is longer than
the maximum length and contains a natural break inside the window. -/
theorem abbreviated_repr_cutoff_spec_witness :
    abbreviated_repr PyKind.other ['a', 'b', 'c', ',', 'd', 'e', 'f', 'g'] 6 [','] =
      ['a', 'b', 'c', ',', 'd', 'e', 'f', 'g'].take
          (claim_cutoff
            (findBreak (['a', 'b', 'c', ',', 'd', 'e', 'f', 'g'].drop (6 / 2)) (6 / 2) [','])
            6 + 1) ++
        ['.', '.', '.'] ++ end_char PyKind.other :=
  abbreviated_repr_cutoff_spec PyKind.other
    ['a', 'b', 'c', ',', 'd', 'e', 'f', 'g'] 6 [','] (by decide)

/-- C3: an element whose identity check fails and whose equality comparison
raises is treated as non-matching by both isIn and indexOf: no error
escapes (both functions stay total, indexOf failing only with its
not-in-list error), the scan continues with the remaining elements, and
indexOf shifts the indices of the rest by one. -/
theorem raising_equality_skipped (eq : α → α → Option Bool)
    (ident : α → α → Bool) (strFn : α → String) (obj o : α) (rest : List α)
    (h1 : ident o obj = false) (h2 : eq o obj = none) :
    isIn eq ident obj (o :: rest) = isIn eq ident obj rest ∧
    indexOf eq ident strFn obj (o :: rest) =
      Except.map (fun n => n + 1) (indexOf eq ident strFn obj rest) := by
  have hm : matchb eq ident obj o = false := by
    simp [matchb, eqCheck, h1, h2]
  constructor
  · rw [isIn_cons, hm, Bool.false_or]
  · unfold indexOf
    rw [indexOfAux_cons, hm, if_neg (by simp)]
    exact indexOfAux_succ eq ident strFn obj rest 0

/-- Witness for C3: the head element 0 compares to target 1 by an equality
operator that always raises; the scan skips it and continues. -/
theorem raising_equality_skipped_witness :
    isIn (fun _ _ => (none : Option Bool)) (fun a b => a == b) (1 : Nat) [0, 1] =
      isIn (fun _ _ => (none : Option Bool)) (fun a b => a == b) (1 : Nat) [1] ∧
    indexOf (fun _ _ => (none : Option Bool)) (fun a b => a == b) toString (1 : Nat) [0, 1] =
      Except.map (fun n => n + 1)
        (indexOf (fun _ _ => (none : Option Bool)) (fun a b => a == b) toString (1 : Nat) [1]) :=
  raising_equality_skipped (fun _ _ => (none : Option Bool)) (fun a b => a == b)
    toString 1 0 [1] (by decide) rfl

/-- C4: on a representation longer than the maximum length the result of
abbreviated_repr is some truncation followed by the literal ellipsis and a
closing suffix determined solely by the container kind: a closing bracket
for a list, bracket-parenthesis for an OrderedDict, a closing brace for a
set or general dict, and nothing for any other value. -/
theorem abbreviated_repr_end_char (kind : PyKind) (vrepr : List Char)
    (max_length : Nat) (natural_breaks : List Char)
    (h : vrepr.length > max_length) :
    (∃ t, abbreviated_repr kind vrepr max_length natural_breaks =
        t ++ ['.', '.', '.'] ++ end_char kind) ∧
    end_char PyKind.pylist = [']'] ∧
    end_char PyKind.orderedDict = [']', ')'] ∧
    end_char PyKind.pydict = ['\x7d'] ∧
    end_char PyKind.pyset = ['\x7d'] ∧
    end_char PyKind.other = [] :=
  ⟨⟨vrepr.take (break_cutoff vrepr max_length natural_breaks + 1),
    abbreviated_repr_long kind vrepr max_length natural_breaks h⟩,
    rfl, rfl, rfl, rfl, rfl⟩

/-- Witness for C4 at a concrete list representation longer than the
maximum length. -/
theorem abbreviated_repr_end_char_witness :
    (∃ t, abbreviated_repr PyKind.pylist ['[', '1', ',', '2', ']'] 3 [','] =
        t ++ ['.', '.', '.'] ++ end_char PyKind.pylist) ∧
    end_char PyKind.pylist = [']'] ∧
    end_char PyKind.orderedDict = [']', ')'] ∧
    end_char PyKind.pydict = ['\x7d'] ∧
    end_char PyKind.pyset = ['\x7d'] ∧
    end_char PyKind.other = [] :=
  abbreviated_repr_end_char PyKind.pylist ['[', '1', ',', '2', ']'] 3 [','] (by decide)

/-- C5: when no element matches the target by identity or by a successful
equality comparison, isIn returns false and indexOf fails with the
not-in-list error carrying the target's display representation; conversely
isIn returns false, and indexOf produces that error, only in that case, so
the failure happens only after the whole sequence has been scanned without
a match. -/
theorem contains_false_and_notFound_iff (eq : α → α → Option Bool)
    (ident : α → α → Bool) (strFn : α → String) (obj : α) (objs : List α) :
    (isIn eq ident obj objs = false ↔
      ∀ o ∈ objs, matchb eq ident obj o = false) ∧
    (indexOf eq ident strFn obj objs =
        Except.error (strFn obj ++ " not in list") ↔
      ∀ o ∈ objs, matchb eq ident obj o = false) := by
  constructor
  · constructor
    · intro h o ho
      cases hm : matchb eq ident obj o
      · rfl
      · have htrue : isIn eq ident obj objs = true :=
          (isIn_eq_true_iff eq ident obj objs).mpr ⟨o, ho, hm⟩
        rw [h] at htrue
        exact Bool.noConfusion htrue
    · intro hall
      cases hb : isIn eq ident obj objs
      · rfl
      · rcases (isIn_eq_true_iff eq ident obj objs).mp hb with ⟨x, hx, hmx⟩
        have hfalse := hall x hx
        rw [hfalse] at hmx
        exact Bool.noConfusion hmx
  · unfold indexOf
    rw [indexOfAux_error_iff]
    exact and_iff_right rfl

/-- C6: the natural-break search is order-dependent in the delimiter list,
not position-dependent: at this concrete input the later-listed space
occurs in the look-ahead window strictly before the earlier-listed comma,
yet the search commits to the comma's first occurrence, and the final
output of abbreviated_repr is cut at the comma. -/
theorem findBreak_order_dependent :
    List.indexOf ' '
        (['a', 'b', 'c', 'd', 'e', 'f', ' ', 'x', ',', 'y', 'l', 'm', 'n', 'o', 'p', 'q', 'r', 's'].drop 5) <
      List.indexOf ','
        (['a', 'b', 'c', 'd', 'e', 'f', ' ', 'x', ',', 'y', 'l', 'm', 'n', 'o', 'p', 'q', 'r', 's'].drop 5) ∧
    ' ' ∈ (['a', 'b', 'c', 'd', 'e', 'f', ' ', 'x', ',', 'y', 'l', 'm', 'n', 'o', 'p', 'q', 'r', 's'].drop 5) ∧
    findBreak
        (['a', 'b', 'c', 'd', 'e', 'f', ' ', 'x', ',', 'y', 'l', 'm', 'n', 'o', 'p', 'q', 'r', 's'].drop 5)
        5 [',', ' '] =
      some
        (List.indexOf ','
          (['a', 'b', 'c', 'd', 'e', 'f', ' ', 'x', ',', 'y', 'l', 'm', 'n', 'o', 'p', 'q', 'r', 's'].drop 5) + 5) ∧
    abbreviated_repr PyKind.other
        ['a', 'b', 'c', 'd', 'e', 'f', ' ', 'x', ',', 'y', 'l', 'm', 'n', 'o', 'p', 'q', 'r', 's']
        10 [',', ' '] =
      ['a', 'b', 'c', 'd', 'e', 'f', ' ', 'x', ',', 'y', '.', '.', '.'] := by
  decide

/-- C7: isIn and indexOf have identical matching semantics: isIn returns
true exactly when indexOf succeeds with some index rather than failing. -/
theorem contains_iff_indexOf_ok (eq : α → α → Option Bool)
    (ident : α → α → Bool) (strFn : α → String) (obj : α) (objs : List α) :
    isIn eq ident obj objs = true ↔
      ∃ n, indexOf eq ident strFn obj objs = Except.ok n := by
  cases h : indexOf eq ident strFn obj objs with
  | ok n =>
    apply iff_of_true
    · unfold indexOf at h
      rw [indexOfAux_ok_iff] at h
      rcases h with ⟨i, -, hf⟩
      unfold isFirstMatch at hf
      rcases hf with ⟨hlt, hm, -⟩
      exact (isIn_eq_true_iff eq ident obj objs).mpr
        ⟨objs.get ⟨i, hlt⟩, List.get_mem objs i hlt, hm⟩
    · exact ⟨n, rfl⟩
  | error msg =>
    apply iff_of_false
    · unfold indexOf at h
      rw [indexOfAux_error_iff] at h
      rcases h with ⟨-, hall⟩
      intro hb
      rcases (isIn_eq_true_iff eq ident obj objs).mp hb with ⟨x, hx, hmx⟩
      have hfalse := hall x hx
      rw [hfalse] at hmx
      exact Bool.noConfusion hmx
    · rintro ⟨n, hn⟩
      exact Except.noConfusion hn

/-- C8: when the representation fits within the maximum length, including
exactly at the maximum length, abbreviated_repr returns it unchanged. -/
theorem abbreviated_repr_short (kind : PyKind) (vrepr : List Char)
    (max_length : Nat) (natural_breaks : List Char)
    (h : vrepr.length ≤ max_length) :
    abbreviated_repr kind vrepr max_length natural_breaks = vrepr := by
  unfold abbreviated_repr
  rw [if_neg (by omega)]

/-- Witness for C8 at a representation of length exactly the maximum
length. -/
theorem abbreviated_repr_short_witness :
    abbreviated_repr PyKind.other ['a', 'b', 'c'] 3 [',', ' '] = ['a', 'b', 'c'] :=
  abbreviated_repr_short PyKind.other ['a', 'b', 'c'] 3 [',', ' '] (by decide)

/-- C9: on a representation longer than the maximum length the result of
abbreviated_repr has length at most the maximum length plus six: at most
one more than the maximum length of truncated characters, a three-character
ellipsis, and a closing suffix of at most two characters. -/
theorem abbreviated_repr_length_bound (kind : PyKind) (vrepr : List Char)
    (max_length : Nat) (natural_breaks : List Char)
    (h : vrepr.length > max_length) :
    (abbreviated_repr kind vrepr max_length natural_breaks).length ≤
      max_length + 6 := by
  rw [abbreviated_repr_long kind vrepr max_length natural_breaks h]
  have h1 := break_cutoff_le vrepr max_length natural_breaks
  have h2 : (end_char kind).length ≤ 2 := by
    cases kind <;> simp [end_char]
  have h3 : (vrepr.take (break_cutoff vrepr max_length natural_breaks + 1)).length ≤
      break_cutoff vrepr max_length natural_breaks + 1 := by
    rw [List.length_take]
    exact Nat.min_le_left _ _
  have h4 : (['.', '.', '.'] : List Char).length = 3 := rfl
  simp only [List.length_append]
  omega

/-- Witness for C9 at a concrete representation longer than the maximum
length. -/
theorem abbreviated_repr_length_bound_witness :
    (abbreviated_repr PyKind.pylist ['[', '1', ',', '2', ']'] 2 [',', ' ']).length ≤ 2 + 6 :=
  abbreviated_repr_length_bound PyKind.pylist ['[', '1', ',', '2', ']'] 2 [',', ' '] (by decide)

/-- C10: when the target is reference-equal to some member of the sequence,
isIn returns true for every equality operator, including one that is false
or raises on the target itself. -/
theorem contains_of_ident_mem (eq : α → α → Option Bool)
    (ident : α → α → Bool) (obj : α) (objs : List α)
    (h : ∃ o ∈ objs, ident o obj = true) :
    isIn eq ident obj objs = true := by
  rcases h with ⟨o, ho, hio⟩
  exact (isIn_eq_true_iff eq ident obj objs).mpr
    ⟨o, ho, by simp [matchb, hio]⟩

/-- Witness for C10: the target 1 occurs in the list while the equality
operator raises on every comparison; the identity check alone finds it. -/
theorem contains_of_ident_mem_witness :
    isIn (fun _ _ => (none : Option Bool)) (fun a b => a == b) (1 : Nat) [0, 1] = true :=
  contains_of_ident_mem (fun _ _ => (none : Option Bool)) (fun a b => a == b)
    1 [0, 1] ⟨1, by decide, by decide⟩

end PanelUtil
